import Mathlib

/-!
Verification of the TY-Tools Streamlit application (src/app.py) against its
natural-language specification.  The Python source is embedded shallowly:
pure helpers become Lean functions on `String` / `List Char`, and the
effectful caption fetcher is modelled as a function over an explicit
`World` record that carries the outcomes of the external calls
(yt-dlp metadata extraction, HTTP subtitle download, JSON parsing).
-/

namespace TYTools

/-! ## Basic Python-style string utilities -/

/-- The whitespace characters recognised by Python's `str.strip` /
`string.whitespace` for the ASCII range (the source only ever meets
ASCII whitespace). -/
def pyIsSpace (c : Char) : Bool :=
  c == ' ' || c == '\t' || c == '\n' || c == '\r' || c == '\x0b' || c == '\x0c'

/-- `str.strip()` on a list of characters: drop whitespace from both ends. -/
def pyStripList (l : List Char) : List Char :=
  ((l.dropWhile pyIsSpace).reverse.dropWhile pyIsSpace).reverse

/-- Python `s.strip()`. -/
def pyStrip (s : String) : String :=
  String.mk (pyStripList s.data)

/-- Python `s.isdigit()` restricted to ASCII digits: non-empty and all digits. -/
def pyIsDigitStr (l : List Char) : Bool :=
  !l.isEmpty && l.all (fun c => '0' ≤ c && c ≤ '9')

/-- `needle` occurs as a contiguous sublist of the second argument. -/
def listInfixOf (needle : List Char) : List Char → Bool
  | [] => needle.isPrefixOf []
  | c :: rest => needle.isPrefixOf (c :: rest) || listInfixOf needle rest

/-- Python `needle in hay` substring test. -/
def strContains (hay needle : String) : Bool :=
  listInfixOf needle.data hay.data

/-- Python `s.startswith(pre)`. -/
def strStartsWith (s pre : String) : Bool :=
  pre.data.isPrefixOf s.data

/-- Python `s.endswith(suf)`. -/
def strEndsWith (s suf : String) : Bool :=
  suf.data.reverse.isPrefixOf s.data.reverse

/-- Python `s.split(sep)` for a one-character separator: keeps empty
pieces, and the empty string yields one empty piece. -/
def splitOnChar (sep : Char) : List Char → List (List Char)
  | [] => [[]]
  | c :: rest =>
    if c == sep then [] :: splitOnChar sep rest
    else
      match splitOnChar sep rest with
      | [] => [[c]]
      | r :: rs => (c :: r) :: rs

/-- Python `s.split('\n')`. -/
def splitNewlines (s : String) : List String :=
  (splitOnChar '\n' s.data).map String.mk

/-- Python `sep.join(parts)`. -/
def pyJoin (sep : String) : List String → String
  | [] => ""
  | [p] => p
  | p :: rest => p ++ sep ++ pyJoin sep rest

/-- ASCII digit test (Python's `\d` on the inputs the app handles). -/
def isDigitChar (c : Char) : Bool :=
  '0' ≤ c && c ≤ '9'

/-! ## Time-notation validation and normalisation (src/app.py 264-283)

`validate_time_format` accepts `^\d{1,2}:\d{2}(:\d{2})?$` or `^\d{4}$|^\d{6}$`;
`normalize_time_format` rewrites the 4- and 6-digit shapes positionally and
returns anything else unchanged. -/

/-- The language of the regex `^\d{1,2}:\d{2}(:\d{2})?$`, spelled out as the
four possible shapes. -/
def matchColonShape : List Char → Bool
  | [a, ':', b, c] => isDigitChar a && isDigitChar b && isDigitChar c
  | [a, b, ':', c, d] =>
      isDigitChar a && isDigitChar b && isDigitChar c && isDigitChar d
  | [a, ':', b, c, ':', d, e] =>
      isDigitChar a && isDigitChar b && isDigitChar c && isDigitChar d &&
        isDigitChar e
  | [a, b, ':', c, d, ':', e, f] =>
      isDigitChar a && isDigitChar b && isDigitChar c && isDigitChar d &&
        isDigitChar e && isDigitChar f
  | _ => false

/-- The language of the regex `^\d{4}$|^\d{6}$`. -/
def matchDigitShape (l : List Char) : Bool :=
  (l.length == 4 || l.length == 6) && l.all isDigitChar

/-- `validate_time_format` (src/app.py 264-271). -/
def validate_time_format (time_str : String) : Bool :=
  matchColonShape time_str.data || matchDigitShape time_str.data

/-- `normalize_time_format` (src/app.py 273-283): `MMSS -> MM:SS`,
`HHMMSS -> HH:MM:SS`, anything else unchanged. -/
def normalize_time_format (time_str : String) : String :=
  match time_str.data with
  | [a, b, c, d] =>
      if isDigitChar a && isDigitChar b && isDigitChar c && isDigitChar d then
        String.mk [a, b, ':', c, d]
      else time_str
  | [a, b, c, d, e, f] =>
      if isDigitChar a && isDigitChar b && isDigitChar c && isDigitChar d &&
          isDigitChar e && isDigitChar f then
        String.mk [a, b, ':', c, d, ':', e, f]
      else time_str
  | _ => time_str

/-- The `--download-sections` argument built from two normalised times
(src/app.py 932: `f"*{normalized_start}-{normalized_end}"`). -/
def downloadSections (start_t end_t : String) : String :=
  "*" ++ start_t ++ "-" ++ end_t

/-! ## Video identifier extraction (src/app.py 86-91)

`extract_video_id` tries four regexes in order and returns the first match:
`(?<=v=)[A-Za-z0-9_-]{11}`, then `youtu\.be/([A-Za-z0-9_-]{11})`,
`embed/([A-Za-z0-9_-]{11})`, `shorts/([A-Za-z0-9_-]{11})`; empty string when
none matches.  `re.search` semantics: the leftmost position at which the
whole pattern matches wins. -/

/-- The character class `[A-Za-z0-9_-]`. -/
def idChar (c : Char) : Bool :=
  ('A' ≤ c && c ≤ 'Z') || ('a' ≤ c && c ≤ 'z') || ('0' ≤ c && c ≤ '9') ||
    c == '_' || c == '-'

/-- Try to match `[A-Za-z0-9_-]{11}` at the current position. -/
def matchIdAt (cs : List Char) : Option (List Char) :=
  let cand := cs.take 11
  if cand.length == 11 && cand.all idChar then some cand else none

/-- `re.search` for `(?<=v=)[A-Za-z0-9_-]{11}`: scan positions left to right,
carrying the two previous characters for the lookbehind. -/
def searchVEq : Option Char → Option Char → List Char → Option (List Char)
  | _, _, [] => none
  | p2, p1, c :: rest =>
    match (if p2 == some 'v' && p1 == some '=' then matchIdAt (c :: rest)
           else none) with
    | some r => some r
    | none => searchVEq p1 (some c) rest

/-- `re.search` for `token([A-Za-z0-9_-]{11})` where `token` is a literal:
scan positions left to right, at each position require the literal followed
by 11 identifier characters. -/
def searchAfterToken (token : List Char) : List Char → Option (List Char)
  | [] => none
  | c :: rest =>
    match (if token.isPrefixOf (c :: rest) then
             matchIdAt ((c :: rest).drop token.length)
           else none) with
    | some r => some r
    | none => searchAfterToken token rest

/-- `extract_video_id` (src/app.py 86-91). -/
def extract_video_id (url : String) : String :=
  match searchVEq none none url.data with
  | some r => String.mk r
  | none =>
    match searchAfterToken "youtu.be/".data url.data with
    | some r => String.mk r
    | none =>
      match searchAfterToken "embed/".data url.data with
      | some r => String.mk r
      | none =>
        match searchAfterToken "shorts/".data url.data with
        | some r => String.mk r
        | none => ""

/-! ## Timed-JSON subtitle decoding (src/app.py 94-108)

`parse_subtitle_json` walks a list of caption events.  An event is a JSON
object; the fields the code reads are `segs` (a list of objects with an
optional `utf8` string) and `text`.  `seg.get('utf8', '')` yields `""` for a
missing field, and the generator filter `if seg.get('utf8')` keeps only
present, non-empty values. -/

structure SegJ where
  utf8 : Option String
deriving DecidableEq, Repr

structure CaptionEvent where
  segs : Option (List SegJ)
  text : Option String
deriving DecidableEq, Repr

/-- `seg.get('utf8', '')`. -/
def segValue (s : SegJ) : String :=
  s.utf8.getD ""

/-- `parse_subtitle_json` (src/app.py 94-108), with the Python loop rendered
as a left fold accumulating `text_parts`. -/
def parse_subtitle_json (subtitle_data : List CaptionEvent) : String :=
  let text_parts := subtitle_data.foldl (fun parts entry =>
    match entry.segs with
    | some segs =>
        let segment_text := pyJoin " "
          (segs.filterMap (fun seg =>
            if segValue seg == "" then none else some (segValue seg)))
        if pyStrip segment_text == "" then parts
        else parts ++ [pyStrip segment_text]
    | none =>
        match entry.text with
        | some t => if pyStrip t == "" then parts else parts ++ [pyStrip t]
        | none => parts) []
  pyJoin " " text_parts

/-! ## VTT decoding (src/app.py 202-209)

The VTT branch splits on newlines and joins the stripped lines that are
non-blank, do not start with `WEBVTT`, do not contain `-->` and are not
purely numeric.  No markup-tag removal happens in this branch. -/

/-- The line filter of the VTT branch. -/
def vttKeepLine (line : String) : Bool :=
  !(pyStrip line == "") && !(strStartsWith line "WEBVTT") &&
    !(strContains line "-->") && !(pyIsDigitStr (pyStripList line.data))

/-- The VTT branch of the fetcher (src/app.py 202-209). -/
def vtt_decode (subtitle_content : String) : String :=
  let lines := splitNewlines subtitle_content
  pyJoin " " ((lines.filter vttKeepLine).map pyStrip)

/-! ## Generic tag-text decoding (src/app.py 210-216)

For the remaining formats the code joins all matches of the regex
`>([^<]+)<` over the payload, with `re.findall` scanning left to right and
continuing after each non-overlapping match. -/

/-- All matches of `>([^<]+)<`, by fuelled recursion (the list shrinks at
every step, so `l.length` fuel is enough). -/
def tagMatchesGo : Nat → List Char → List String
  | 0, _ => []
  | _ + 1, [] => []
  | fuel + 1, c :: rest =>
    if c == '>' then
      let run := rest.takeWhile (fun d => !(d == '<'))
      match rest.drop run.length with
      | '<' :: rest2 =>
          if run.isEmpty then tagMatchesGo fuel rest
          else String.mk run :: tagMatchesGo fuel rest2
      | _ => tagMatchesGo fuel rest
    else tagMatchesGo fuel rest

/-- `re.findall(r'>([^<]+)<', subtitle_content)`. -/
def tagMatches (l : List Char) : List String :=
  tagMatchesGo l.length l

/-- The fallback decode branch (src/app.py 210-216). -/
def tagTextJoin (subtitle_content : String) : String :=
  pyJoin " " (tagMatches subtitle_content.data)

/-! ## The caption fetcher (src/app.py 111-234)

`fetch_english_transcript_ytdlp` is effectful: it calls yt-dlp's
`extract_info`, an HTTP download, and `json.loads`, and its whole body is
wrapped in `try/except`.  The external behaviour is modelled by a `World`
record; exceptions become explicit outcomes.  The Streamlit `st.success` /
`st.warning` calls in the body are UI-only side effects with no influence on
the returned value and are not modelled. -/

/-- One caption track as listed by yt-dlp metadata: `sub.get('ext')` may be
absent, `sub['url']` is read unconditionally. -/
structure SubTrack where
  ext : Option String
  url : String
deriving DecidableEq, Repr

/-- The part of the yt-dlp `info` dict the fetcher reads:
`info.get('subtitles', {})` and `info.get('automatic_captions', {})`, each a
mapping from language code to track list (dict keys are unique; modelled as
an association list looked up by first match). -/
structure VideoInfo where
  subtitles : List (String × List SubTrack)
  automatic_captions : List (String × List SubTrack)
deriving DecidableEq, Repr

/-- The Python exception classes distinguished by the handlers at
src/app.py 223-234. -/
inductive PyExc where
  | downloadError (msg : String)
  | jsonDecodeError
  | otherExc (name : String) (msg : String)
deriving DecidableEq, Repr

/-- Outcome of `ydl.extract_info(...)`: an exception, `None`, or an info
dict. -/
inductive ExtractOutcome where
  | exc (e : PyExc)
  | ok (info : Option VideoInfo)

/-- The parsed JSON document as consumed by the json3 branch
(src/app.py 196-201): either a dict with an `events` key whose value is the
event list, or a bare value handed to `parse_subtitle_json` directly. -/
inductive JsonDoc where
  | withEvents (events : List CaptionEvent)
  | plain (events : List CaptionEvent)

/-- Behaviour of the external calls within one fetch: `extract` is
`extract_info` keyed by video id, `urlopen` is the subtitle HTTP download
keyed by URL, and `jsonLoads` abstracts `json.loads` (an error models
`json.JSONDecodeError`). -/
structure World where
  extract : String → ExtractOutcome
  urlopen : String → Except PyExc String
  jsonLoads : String → Except Unit JsonDoc

/-- `english_codes` (src/app.py 137). -/
def english_codes : List String :=
  ["en", "en-US", "en-GB", "en-CA", "en-AU", "en-NZ", "en-IN", "a.en"]

/-- `priority_langs` (src/app.py 167). -/
def priority_langs : List String :=
  ["ja", "es", "fr", "de", "it", "pt", "ko", "zh", "zh-CN", "zh-TW"]

/-- The recognised wire formats (src/app.py 143 etc.). -/
def allowed_exts : List String :=
  ["json3", "srv3", "srv2", "srv1", "vtt", "ttml"]

/-- `sub.get('ext') in ['json3', 'srv3', 'srv2', 'srv1', 'vtt', 'ttml']`. -/
def allowedTrack (sub : SubTrack) : Bool :=
  match sub.ext with
  | some e => allowed_exts.contains e
  | none => false

/-- One language pass of the selection loops (src/app.py 139-149 shape):
if `lang` is a key of `caps`, take the first listed track whose `ext` is
recognised and return its URL together with `lang`. -/
def find_lang_track (caps : List (String × List SubTrack)) (lang : String) :
    Option (String × String) :=
  match caps.lookup lang with
  | none => none
  | some subs =>
    match subs.find? allowedTrack with
    | none => none
    | some sub => some (sub.url, lang)

/-- The full track-selection logic (src/app.py 136-177): English automatic
captions first, then English manual captions, then — only when the
automatic-caption dict is non-empty — the secondary language list over the
automatic captions. -/
def find_subtitle (info : VideoInfo) : Option (String × String) :=
  match english_codes.findSome? (find_lang_track info.automatic_captions) with
  | some r => some r
  | none =>
    match english_codes.findSome? (find_lang_track info.subtitles) with
    | some r => some r
    | none =>
      if info.automatic_captions.isEmpty then none
      else priority_langs.findSome? (find_lang_track info.automatic_captions)

/-- The no-captions diagnostic message (src/app.py 179-188). -/
def noCaptionsMsg (info : VideoInfo) : String :=
  "字幕が見つかりませんでした。\n\n" ++
    (if info.automatic_captions.isEmpty then ""
     else "利用可能な自動生成字幕の言語: " ++
       pyJoin ", " (info.automatic_captions.map Prod.fst) ++ "\n") ++
    (if info.subtitles.isEmpty then ""
     else "利用可能な手動字幕の言語: " ++
       pyJoin ", " (info.subtitles.map Prod.fst) ++ "\n") ++
    (if info.automatic_captions.isEmpty && info.subtitles.isEmpty then
       "この動画には字幕が設定されていません。"
     else "")

/-- The `except` handlers at src/app.py 223-234, in source order. -/
def handleExc : PyExc → String × String × String
  | .downloadError msg =>
    if strContains msg "Video unavailable" then
      ("", "動画が利用できません。非公開または削除されている可能性があります。", "")
    else if strContains msg "Sign in to confirm your age" then
      ("", "年齢制限のある動画です。字幕を取得できません。", "")
    else
      ("", "ダウンロードエラー: " ++ msg, "")
  | .jsonDecodeError => ("", "字幕データの形式が正しくありません。", "")
  | .otherExc name msg =>
      ("", "予期しないエラーが発生しました: " ++ name ++ ": " ++ msg, "")

/-- Format dispatch on the downloaded payload (src/app.py 195-216).  An
`Except.error` models a `json.JSONDecodeError` escaping `json.loads`. -/
def decode_payload (jsonLoads : String → Except Unit JsonDoc)
    (subtitle_url subtitle_content : String) : Except Unit String :=
  if strEndsWith subtitle_url ".json3" || strContains subtitle_url "json3" then
    match jsonLoads subtitle_content with
    | .error _ => .error ()
    | .ok (.withEvents evts) => .ok (parse_subtitle_json evts)
    | .ok (.plain evts) => .ok (parse_subtitle_json evts)
  else if strEndsWith subtitle_url ".vtt" || strContains subtitle_url "vtt" then
    .ok (vtt_decode subtitle_content)
  else
    .ok (tagTextJoin subtitle_content)

/-- `fetch_english_transcript_ytdlp` (src/app.py 111-234).  Returns
`(transcript_text, error_message, language_code)`; every exception raised by
the body is mapped to a result by the handlers, so the function is total. -/
def fetch_english_transcript_ytdlp (w : World) (video_id : String) :
    String × String × String :=
  match w.extract video_id with
  | .exc e => handleExc e
  | .ok none => ("", "動画情報を取得できませんでした。", "")
  | .ok (some info) =>
    match find_subtitle info with
    | none => ("", noCaptionsMsg info, "")
    | some (subtitle_url, found_lang) =>
      match w.urlopen subtitle_url with
      | .error e => handleExc e
      | .ok subtitle_content =>
        match decode_payload w.jsonLoads subtitle_url subtitle_content with
        | .error _ => ("", "字幕データの形式が正しくありません。", "")
        | .ok transcript_text =>
          if transcript_text == "" then
            ("", "字幕データの解析に失敗しました。", "")
          else
            (transcript_text, "",
              if found_lang == "" then "en" else found_lang)

/-! ## Python `textwrap.wrap` (used at src/app.py 249)

`translate_to_japanese` splits its input with `textwrap.wrap(text, 6000)`.
`textwrap` is the Python standard library, not repository code; it is
modelled here from its documented default behaviour: tabs are expanded
(tab stops of 8, columns reset at line breaks), every remaining whitespace
character is replaced by a single space, the text is split into alternating
whitespace/word chunks, and lines of at most `width` characters are filled
greedily, dropping whitespace chunks at line boundaries and breaking words
longer than `width` (preferring a break after an interior hyphen).  The
hyphen-aware refinement of the chunk splitter itself (`break_on_hyphens`
inside `_split`) only moves chunk boundaries when a line overflows and is
not modelled. -/

/-- `str.expandtabs(8)`: expand each tab to the next multiple-of-8 column;
`\n` and `\r` reset the column. -/
def expandTabs8 : Nat → List Char → List Char
  | _, [] => []
  | col, c :: rest =>
    if c == '\t' then
      let n := 8 - col % 8
      List.replicate n ' ' ++ expandTabs8 (col + n) rest
    else if c == '\n' || c == '\r' then c :: expandTabs8 0 rest
    else c :: expandTabs8 (col + 1) rest

/-- `_munge_whitespace`: expand tabs, then replace each whitespace character
by a space. -/
def mungeWhitespace (l : List Char) : List Char :=
  (expandTabs8 0 l).map (fun c => if pyIsSpace c then ' ' else c)

/-- Split the munged text into maximal runs of spaces / non-spaces (fuelled:
every step consumes at least one character, so `l.length` fuel suffices). -/
def splitRunsGo : Nat → List Char → List (List Char)
  | 0, _ => []
  | _ + 1, [] => []
  | fuel + 1, c :: rest =>
    let run := rest.takeWhile (fun d => (d == ' ') == (c == ' '))
    (c :: run) :: splitRunsGo fuel (rest.drop run.length)

/-- Split into maximal runs of spaces / non-spaces. -/
def splitRuns (l : List Char) : List (List Char) :=
  splitRunsGo l.length l

/-- Greedily take chunks onto the current line while they fit. -/
def fillLine (width : Nat) : Nat → List (List Char) →
    List (List Char) × List (List Char)
  | _, [] => ([], [])
  | curLen, c :: rest =>
    if curLen + c.length ≤ width then
      let (line, rem) := fillLine width (curLen + c.length) rest
      (c :: line, rem)
    else ([], c :: rest)

/-- Total character count of a chunk list. -/
def chunkLens (l : List (List Char)) : Nat :=
  l.foldl (fun n c => n + c.length) 0

/-- `str.rfind(ch, 0, stop)`: the highest index below `stop` holding `ch`. -/
def pyRfindBefore (ch : Char) (l : List Char) (stop : Nat) : Option Nat :=
  let seg := l.take stop
  match seg.reverse.findIdx? (fun c => c == ch) with
  | some j => some (seg.length - 1 - j)
  | none => none

/-- `_handle_long_word` with `break_long_words` and `break_on_hyphens`:
split off at most `space_left` characters, preferring a break just after an
interior hyphen. -/
def handleLongWord (width curLen : Nat) (chunk : List Char) :
    List Char × List Char :=
  let spaceLeft := if width < 1 then 1 else width - curLen
  let endIdx :=
    if spaceLeft < chunk.length then
      match pyRfindBefore '-' chunk spaceLeft with
      | some h =>
          if 0 < h && (chunk.take h).any (fun c => !(c == '-')) then h + 1
          else spaceLeft
      | none => spaceLeft
    else spaceLeft
  (chunk.take endIdx, chunk.drop endIdx)

/-- A chunk that `str.strip()` reduces to the empty string. -/
def isSpaceRun (l : List Char) : Bool :=
  l.all pyIsSpace

/-- `_wrap_chunks` with fuel (each iteration consumes a chunk or shortens
the text, so `total length + chunk count + 1` fuel always suffices). -/
def wrapLoop (width : Nat) : Nat → List (List Char) → List (List Char) →
    List (List Char)
  | 0, _, lines => lines.reverse
  | _ + 1, [], lines => lines.reverse
  | fuel + 1, c0 :: rest0, lines =>
    let chunks := if isSpaceRun c0 && !lines.isEmpty then rest0
                  else c0 :: rest0
    let (cur, rem) := fillLine width 0 chunks
    let (cur2, rem2) :=
      match rem with
      | c :: rest =>
        if width < c.length then
          let (headPart, tailPart) := handleLongWord width (chunkLens cur) c
          (cur ++ [headPart], tailPart :: rest)
        else (cur, c :: rest)
      | [] => (cur, [])
    let cur3 :=
      match cur2.getLast? with
      | some lastC => if isSpaceRun lastC then cur2.dropLast else cur2
      | none => cur2
    let lines2 := if cur3.isEmpty then lines else cur3.flatten :: lines
    wrapLoop width fuel rem2 lines2

/-- `textwrap.wrap(text, width)` with the default options. -/
def textwrap_wrap (width : Nat) (text : String) : List String :=
  let munged := mungeWhitespace text.data
  let chunks := splitRuns munged
  (wrapLoop width (munged.length + chunks.length + 1) chunks []).map String.mk

/-! ## Translation caller (src/app.py 237-257)

`translate_to_japanese` builds a prompt per 6000-wide `textwrap` chunk and
calls the hosted model once per chunk; the generation service is modelled as
an abstract function `g` from prompt to response text.  The embedding also
returns the list of prompts issued, in order, making the call pattern
observable. -/

/-- The instruction attached in front of every chunk, by source language
(src/app.py 243-246). -/
def promptFor (source_lang : String) : String :=
  if strStartsWith source_lang "en" then
    "以下の英文を自然な日本語（敬体、です・ます調）に翻訳してください。原文の改行を維持してください。\n\n"
  else
    "以下のテキスト（言語コード: " ++ source_lang ++
      "）を自然な日本語（敬体、です・ます調）に翻訳してください。原文の改行を維持してください。\n\n"

/-- `translate_to_japanese` (src/app.py 237-257): first component is the
returned translation, second the list of prompts sent to the generation
service. -/
def translate_to_japanese (g : String → String) (text : String)
    (source_lang : String) : String × List String :=
  if text == "" then ("", [])
  else
    let pfx := promptFor source_lang
    let (jp_parts, calls) := (textwrap_wrap 6000 text).foldl
      (fun acc chunk =>
        (acc.1 ++ [pyStrip (g (pfx ++ chunk))], acc.2 ++ [pfx ++ chunk]))
      ([], [])
    (pyJoin "\n\n" jp_parts, calls)

/-! ## Spec-side definitions

The following definitions transcribe claim sentences (not the source); each
is compared against the corresponding source-derived definition above. -/

/-- Claim C6's description of the timed-JSON decoder: an event with `segs`
contributes the space-join of its segments' `utf8` fields, an event without
`segs` but with `text` contributes that text, and events with neither
contribute nothing. -/
def claimC6_contribution (e : CaptionEvent) : String :=
  match e.segs with
  | some segs => pyJoin " " (segs.map segValue)
  | none => e.text.getD ""

/-- Claim C6's decoder: space-join the contributions, skipping events whose
contribution is empty or only whitespace. -/
def claimC6_decode (evts : List CaptionEvent) : String :=
  pyJoin " " ((evts.map claimC6_contribution).filter
    (fun s => !(pyStrip s == "")))

/-- Amended C6 contribution: as claimed, but segments with a missing or
empty `utf8` field are skipped before joining, and the contribution is
trimmed of surrounding whitespace; whitespace-only contributions are
dropped. -/
def amendedC6_contribution (e : CaptionEvent) : Option String :=
  match e.segs with
  | some segs =>
      let joined := pyJoin " "
        (segs.filterMap (fun seg =>
          if segValue seg == "" then none else some (segValue seg)))
      if pyStrip joined == "" then none else some (pyStrip joined)
  | none =>
    match e.text with
    | some t => if pyStrip t == "" then none else some (pyStrip t)
    | none => none

/-- Amended C6 decoder: space-join of the surviving contributions. -/
def amendedC6_decode (evts : List CaptionEvent) : String :=
  pyJoin " " (evts.filterMap amendedC6_contribution)

/-- Amended C7 decoder, in the claim's remove-then-join phrasing: drop
blank lines, `WEBVTT` header lines, timing-arrow lines and purely numeric
lines, trim each surviving line, join with single spaces.  (Unlike the
original claim, no markup-tag removal: the code performs none.) -/
def amendedC7_decode (subtitle_content : String) : String :=
  pyJoin " " ((splitNewlines subtitle_content).filterMap (fun line =>
    if pyStrip line == "" || strStartsWith line "WEBVTT" ||
        strContains line "-->" || pyIsDigitStr (pyStripList line.data) then
      none
    else some (pyStrip line)))

/-- Fixed-size slicing into 6000-character chunks, as claim C9 describes the
splitting step (fuelled: every step consumes at least one character). -/
def sliceChunksGo : Nat → List Char → List (List Char)
  | 0, _ => []
  | _ + 1, [] => []
  | fuel + 1, c :: rest =>
    ((c :: rest).take 6000) :: sliceChunksGo fuel ((c :: rest).drop 6000)

/-- Fixed-size slicing into 6000-character chunks. -/
def sliceChunks (l : List Char) : List (List Char) :=
  sliceChunksGo l.length l

/-- Claim C9's translation caller: empty in, empty out; otherwise one
generation call per fixed-size 6000-character chunk, responses trimmed and
joined with a blank line, in chunk order. -/
def claimC9_translate (g : String → String) (text : String)
    (source_lang : String) : String × List String :=
  if text == "" then ("", [])
  else
    let pfx := promptFor source_lang
    let chunks := (sliceChunks text.data).map String.mk
    (pyJoin "\n\n" (chunks.map (fun c => pyStrip (g (pfx ++ c)))),
      chunks.map (fun c => pfx ++ c))

/-! ## Helper lemmas -/

theorem str_append_ne_empty (s t : String) (h : s ≠ "") : s ++ t ≠ "" := by
  intro hc
  apply h
  have hd : s.data ++ t.data = [] := by
    have := congrArg String.data hc
    rwa [String.data_append] at this
  have hs : s.data = [] := (List.append_eq_nil.mp hd).1
  cases s
  simp_all

/-! ## C8 / C10: time-notation validation and normalisation -/

/-- Claim C8: the validator accepts colon-delimited M:S and H:M:S strings
and fixed-width 4- or 6-digit strings, rejects malformed strings such as
`1:2:3:4`; the normaliser maps `0130` to `01:30`, `012233` to `01:22:33`,
and leaves `01:22:33` unchanged. -/
theorem claim_C8 (a b c d e f : Char)
    (ha : isDigitChar a = true) (hb : isDigitChar b = true)
    (hc : isDigitChar c = true) (hd : isDigitChar d = true)
    (he : isDigitChar e = true) (hf : isDigitChar f = true) :
    validate_time_format (String.mk [a, ':', b, c]) = true ∧
    validate_time_format (String.mk [a, b, ':', c, d]) = true ∧
    validate_time_format (String.mk [a, b, ':', c, d, ':', e, f]) = true ∧
    validate_time_format (String.mk [a, b, c, d]) = true ∧
    validate_time_format (String.mk [a, b, c, d, e, f]) = true ∧
    validate_time_format "1:2:3:4" = false ∧
    normalize_time_format "0130" = "01:30" ∧
    normalize_time_format "012233" = "01:22:33" ∧
    normalize_time_format "01:22:33" = "01:22:33" := by
  refine ⟨?_, ?_, ?_, ?_, ?_, by decide, by decide, by decide, by decide⟩
  · simp [validate_time_format, matchColonShape, ha, hb, hc]
  · simp [validate_time_format, matchColonShape, ha, hb, hc, hd]
  · simp [validate_time_format, matchColonShape, ha, hb, hc, hd, he, hf]
  · have : matchDigitShape [a, b, c, d] = true := by
      simp [matchDigitShape, ha, hb, hc, hd]
    simp [validate_time_format, this]
  · have : matchDigitShape [a, b, c, d, e, f] = true := by
      simp [matchDigitShape, ha, hb, hc, hd, he, hf]
    simp [validate_time_format, this]

theorem claim_C8_witness :
    validate_time_format (String.mk ['1', ':', '2', '3']) = true :=
  (claim_C8 '1' '2' '3' '4' '5' '6' (by decide) (by decide) (by decide)
    (by decide) (by decide) (by decide)).1

/-- Claim C10: validation and normalisation are shape-only and never check
numeric range — any digit string of the accepted shapes passes, `99:99`
validates, `0199` normalises positionally to `01:99`, and the out-of-range
time flows unchanged into the `--download-sections` argument. -/
theorem claim_C10 (a b c d : Char)
    (ha : isDigitChar a = true) (hb : isDigitChar b = true)
    (hc : isDigitChar c = true) (hd : isDigitChar d = true) :
    validate_time_format (String.mk [a, b, ':', c, d]) = true ∧
    normalize_time_format (String.mk [a, b, c, d]) =
      String.mk [a, b, ':', c, d] ∧
    validate_time_format "99:99" = true ∧
    normalize_time_format "0199" = "01:99" ∧
    normalize_time_format "99:99" = "99:99" ∧
    downloadSections (normalize_time_format "0199")
      (normalize_time_format "0200") = "*01:99-02:00" := by
  refine ⟨?_, ?_, by decide, by decide, by decide, by decide⟩
  · simp [validate_time_format, matchColonShape, ha, hb, hc, hd]
  · simp [normalize_time_format, ha, hb, hc, hd]

theorem claim_C10_witness :
    validate_time_format (String.mk ['9', '9', ':', '9', '9']) = true ∧
    normalize_time_format (String.mk ['9', '1', '9', '9']) =
      String.mk ['9', '1', ':', '9', '9'] :=
  ⟨(claim_C10 '9' '9' '9' '9' (by decide) (by decide) (by decide)
      (by decide)).1,
    (claim_C10 '9' '1' '9' '9' (by decide) (by decide) (by decide)
      (by decide)).2.1⟩

/-! ## C6: timed-JSON decoding -/

theorem parseFold_eq (evts : List CaptionEvent) (acc : List String) :
    evts.foldl (fun parts entry =>
      match entry.segs with
      | some segs =>
          let segment_text := pyJoin " "
            (segs.filterMap (fun seg =>
              if segValue seg == "" then none else some (segValue seg)))
          if pyStrip segment_text == "" then parts
          else parts ++ [pyStrip segment_text]
      | none =>
        match entry.text with
        | some t => if pyStrip t == "" then parts else parts ++ [pyStrip t]
        | none => parts) acc
    = acc ++ evts.filterMap amendedC6_contribution := by
  induction evts generalizing acc with
  | nil => simp
  | cons e rest ih =>
    rw [List.foldl_cons, List.filterMap_cons, ih]
    cases hs : e.segs with
    | some segs =>
      simp only [hs, amendedC6_contribution]
      split
      · simp
      · simp
    | none =>
      cases ht : e.text with
      | some t =>
        simp only [hs, ht, amendedC6_contribution]
        split
        · simp
        · simp
      | none => simp [hs, ht, amendedC6_contribution]

/-- Counterexample to claim C6: the decoder trims each contribution and
skips empty `utf8` fields before joining, so on events with surrounding or
interior whitespace it differs from the claimed space-joined
concatenation. -/
theorem claim_C6_counterexample :
    parse_subtitle_json [⟨some [⟨some " Hello"⟩], none⟩] = "Hello" ∧
    claimC6_decode [⟨some [⟨some " Hello"⟩], none⟩] = " Hello" ∧
    parse_subtitle_json [⟨some [⟨some " Hello"⟩], none⟩] ≠
      claimC6_decode [⟨some [⟨some " Hello"⟩], none⟩] ∧
    parse_subtitle_json [⟨some [⟨some "a"⟩, ⟨some ""⟩, ⟨some "b"⟩], none⟩] =
      "a b" ∧
    claimC6_decode [⟨some [⟨some "a"⟩, ⟨some ""⟩, ⟨some "b"⟩], none⟩] =
      "a  b" := by
  decide

/-- Amended claim C6: the decoder space-joins one contribution per event,
where an event with `segs` contributes the space-join of its non-empty
`utf8` fields trimmed of surrounding whitespace, an event without `segs`
but with `text` contributes that text trimmed, and events whose
contribution is empty or whitespace-only are skipped; the reference events
decode to `Hello world`. -/
theorem claim_C6_amended :
    (∀ evts, parse_subtitle_json evts = amendedC6_decode evts) ∧
    parse_subtitle_json
      [⟨some [⟨some "Hello"⟩], none⟩, ⟨some [⟨some "world"⟩], none⟩] =
      "Hello world" := by
  constructor
  · intro evts
    unfold parse_subtitle_json amendedC6_decode
    rw [parseFold_eq]
    simp
  · decide

/-! ## C9: chunked translation -/

theorem foldl_pair_append {α : Type} (f h : α → String) (l : List α)
    (a b : List String) :
    l.foldl (fun acc c => (acc.1 ++ [f c], acc.2 ++ [h c])) (a, b)
      = (a ++ l.map f, b ++ l.map h) := by
  induction l generalizing a b with
  | nil => simp
  | cons c rest ih => simp [ih]

/-- Counterexample to claim C9: the source splits with
`textwrap.wrap(text, 6000)`, not into fixed-size character chunks.  On the
non-empty, whitespace-only input `"   "` the wrapper produces no chunks at
all, so the code issues zero generation calls and returns `""`, while the
claimed fixed-size chunking would issue one call and return its trimmed
response. -/
theorem claim_C9_counterexample :
    translate_to_japanese (fun _ => "X") "   " "en" = ("", []) ∧
    claimC9_translate (fun _ => "X") "   " "en" =
      ("X", [promptFor "en" ++ "   "]) ∧
    (translate_to_japanese (fun _ => "X") "   " "en").1 ≠
      (claimC9_translate (fun _ => "X") "   " "en").1 := by
  decide

/-- Amended claim C9: the caller returns empty output and issues no calls on
empty input; otherwise it splits the input with Python `textwrap.wrap` at
width 6000 (word-boundary wrapping with whitespace normalisation — not
fixed-size slices; whitespace-only input yields no chunks and no calls),
issues exactly one generation call per chunk in chunk order, trims each
response, and joins the trimmed responses with a blank-line separator in
the same order. -/
theorem claim_C9_amended :
    (∀ (g : String → String) (lang : String),
      translate_to_japanese g "" lang = ("", [])) ∧
    (∀ (g : String → String) (text lang : String),
      (translate_to_japanese g text lang).2 =
        (textwrap_wrap 6000 text).map (fun c => promptFor lang ++ c) ∧
      (translate_to_japanese g text lang).1 =
        pyJoin "\n\n" ((textwrap_wrap 6000 text).map
          (fun c => pyStrip (g (promptFor lang ++ c))))) := by
  constructor
  · intro g lang
    rfl
  · intro g text lang
    by_cases h : text = ""
    · subst h
      exact ⟨rfl, rfl⟩
    · have hb : (text == "") = false := by
        simp [h]
      unfold translate_to_japanese
      rw [hb]
      simp only [Bool.false_eq_true, if_false]
      rw [foldl_pair_append]
      simp

/-! ## C7: VTT decoding -/

theorem isPrefixOf_append_right (n l w : List Char)
    (h : n.isPrefixOf l = true) : n.isPrefixOf (l ++ w) = true := by
  induction n generalizing l with
  | nil => simp [List.isPrefixOf]
  | cons a ns ih =>
    cases l with
    | nil => simp [List.isPrefixOf] at h
    | cons b l' =>
      simp only [List.cons_append, List.isPrefixOf, Bool.and_eq_true] at h ⊢
      exact ⟨h.1, ih l' h.2⟩

theorem listInfixOf_empty_needle (l : List Char) : listInfixOf [] l = true := by
  cases l <;> simp [listInfixOf, List.isPrefixOf]

theorem listInfixOf_append_right (n l w : List Char)
    (h : listInfixOf n l = true) : listInfixOf n (l ++ w) = true := by
  induction l with
  | nil =>
    have hn : n = [] := by
      cases n with
      | nil => rfl
      | cons a as => simp [listInfixOf, List.isPrefixOf] at h
    subst hn
    exact listInfixOf_empty_needle ([] ++ w)
  | cons c l' ih =>
    rw [List.cons_append]
    simp only [listInfixOf, Bool.or_eq_true] at h ⊢
    rcases h with h | h
    · left
      have := isPrefixOf_append_right n (c :: l') w h
      rwa [List.cons_append] at this
    · right
      exact ih h

theorem isPrefixOf_through_space (n : List Char) (hn : ∀ c ∈ n, c ≠ ' ') :
    ∀ p q : List Char, n.isPrefixOf (p ++ ' ' :: q) = true →
      n.isPrefixOf p = true := by
  induction n with
  | nil => intro p q _; simp [List.isPrefixOf]
  | cons a as ih =>
    intro p q h
    cases p with
    | nil =>
      exfalso
      simp only [List.nil_append, List.isPrefixOf, Bool.and_eq_true,
        beq_iff_eq] at h
      exact hn a (List.mem_cons_self a as) h.1
    | cons b p' =>
      simp only [List.cons_append, List.isPrefixOf, Bool.and_eq_true] at h ⊢
      exact ⟨h.1, ih (fun c hc => hn c (List.mem_cons_of_mem a hc)) p' q h.2⟩

theorem listInfixOf_sep (n : List Char) (hne : n ≠ [])
    (hn : ∀ c ∈ n, c ≠ ' ') :
    ∀ p q : List Char, listInfixOf n p = false → listInfixOf n q = false →
      listInfixOf n (p ++ ' ' :: q) = false := by
  intro p
  induction p with
  | nil =>
    intro q _ hq
    have h1 : n.isPrefixOf (' ' :: q) = false := by
      cases n with
      | nil => exact absurd rfl hne
      | cons a as =>
        have ha : a ≠ ' ' := hn a (List.mem_cons_self a as)
        simp [List.isPrefixOf, ha]
    simp [listInfixOf, h1, hq]
  | cons b p' ih =>
    intro q hp hq
    simp only [listInfixOf, Bool.or_eq_false_iff] at hp
    have h1 : n.isPrefixOf (b :: (p' ++ ' ' :: q)) = false := by
      by_contra hcon
      rw [Bool.not_eq_false] at hcon
      have : n.isPrefixOf (b :: p') = true := by
        have := isPrefixOf_through_space n hn (b :: p') q
          (by rwa [List.cons_append])
        exact this
      rw [hp.1] at this
      exact Bool.false_ne_true this
    rw [List.cons_append]
    simp [listInfixOf, h1, ih q hp.2 hq]

theorem listInfixOf_pyJoin_space (n : List Char) (hne : n ≠ [])
    (hn : ∀ c ∈ n, c ≠ ' ') :
    ∀ parts : List String, (∀ s ∈ parts, listInfixOf n s.data = false) →
      listInfixOf n (pyJoin " " parts).data = false := by
  intro parts
  induction parts with
  | nil =>
    intro _
    cases n with
    | nil => exact absurd rfl hne
    | cons a as => simp [pyJoin, listInfixOf, List.isPrefixOf]
  | cons p rest ih =>
    intro hp
    cases rest with
    | nil => simpa [pyJoin] using hp p (List.mem_cons_self p [])
    | cons p2 rest2 =>
      have hstep : pyJoin " " (p :: p2 :: rest2) =
          p ++ " " ++ pyJoin " " (p2 :: rest2) := rfl
      rw [hstep, String.data_append, String.data_append]
      have hassoc : p.data ++ (" " : String).data ++
          (pyJoin " " (p2 :: rest2)).data =
          p.data ++ (' ' :: (pyJoin " " (p2 :: rest2)).data) := by
        rw [List.append_assoc]
        rfl
      rw [hassoc]
      exact listInfixOf_sep n hne hn p.data (pyJoin " " (p2 :: rest2)).data
        (hp p (List.mem_cons_self p _))
        (ih (fun s hs => hp s (List.mem_cons_of_mem p hs)))

theorem listInfixOf_dropWhile (n : List Char) (p : Char → Bool) :
    ∀ l : List Char, listInfixOf n (l.dropWhile p) = true →
      listInfixOf n l = true := by
  intro l
  induction l with
  | nil => intro h; simpa using h
  | cons a l' ih =>
    intro h
    by_cases hpa : p a
    · rw [List.dropWhile_cons, if_pos hpa] at h
      have := ih h
      simp [listInfixOf, this]
    · rwa [List.dropWhile_cons, if_neg hpa] at h

theorem pyStripList_decomp (l : List Char) :
    ∃ w, l.dropWhile pyIsSpace = pyStripList l ++ w := by
  refine ⟨((l.dropWhile pyIsSpace).reverse.takeWhile pyIsSpace).reverse, ?_⟩
  calc l.dropWhile pyIsSpace
      = ((l.dropWhile pyIsSpace).reverse).reverse :=
        (List.reverse_reverse _).symm
    _ = ((l.dropWhile pyIsSpace).reverse.takeWhile pyIsSpace ++
          (l.dropWhile pyIsSpace).reverse.dropWhile pyIsSpace).reverse := by
        rw [List.takeWhile_append_dropWhile]
    _ = ((l.dropWhile pyIsSpace).reverse.dropWhile pyIsSpace).reverse ++
          ((l.dropWhile pyIsSpace).reverse.takeWhile pyIsSpace).reverse := by
        rw [List.reverse_append]
    _ = pyStripList l ++
          ((l.dropWhile pyIsSpace).reverse.takeWhile pyIsSpace).reverse := rfl

theorem listInfixOf_pyStripList (n l : List Char)
    (h : listInfixOf n (pyStripList l) = true) : listInfixOf n l = true := by
  obtain ⟨w, hw⟩ := pyStripList_decomp l
  apply listInfixOf_dropWhile n pyIsSpace l
  rw [hw]
  exact listInfixOf_append_right n (pyStripList l) w h

/-- `vttKeepLine` is the negation of the removal condition. -/
theorem vttKeepLine_eq_not (line : String) :
    vttKeepLine line =
      !(pyStrip line == "" || strStartsWith line "WEBVTT" ||
        strContains line "-->" || pyIsDigitStr (pyStripList line.data)) := by
  simp [vttKeepLine, Bool.not_or, Bool.and_assoc]

theorem vtt_filter_filterMap (lines : List String) :
    (lines.filter vttKeepLine).map pyStrip =
      lines.filterMap (fun line =>
        if pyStrip line == "" || strStartsWith line "WEBVTT" ||
            strContains line "-->" || pyIsDigitStr (pyStripList line.data)
        then none else some (pyStrip line)) := by
  induction lines with
  | nil => rfl
  | cons l rest ih =>
    cases h : (pyStrip l == "" || strStartsWith l "WEBVTT" ||
        strContains l "-->" || pyIsDigitStr (pyStripList l.data)) with
    | true =>
      have hk : vttKeepLine l = false := by
        rw [vttKeepLine_eq_not, h]
        rfl
      rw [List.filter_cons, List.filterMap_cons]
      simp only [hk, h]
      rw [if_pos trivial]
      exact ih
    | false =>
      have hk : vttKeepLine l = true := by
        rw [vttKeepLine_eq_not, h]
        rfl
      rw [List.filter_cons, List.filterMap_cons]
      simp only [hk, h]
      rw [if_pos trivial]
      exact congrArg (fun t => pyStrip l :: t) ih

/-- Counterexample to claim C7: the VTT branch performs no markup-tag
removal, so tags survive into the decoded output. -/
theorem claim_C7_counterexample :
    vtt_decode "WEBVTT\n00:00:00.000 --> 00:00:01.000\n<c>Hello</c>" =
      "<c>Hello</c>" ∧
    strContains
      (vtt_decode "WEBVTT\n00:00:00.000 --> 00:00:01.000\n<c>Hello</c>")
      "<c>" = true := by
  decide

/-- Amended claim C7: the VTT decoder space-joins the trimmed non-blank
lines after removing `WEBVTT` header lines, timing-arrow lines and purely
numeric cue-number lines; inline markup tags are not removed and may appear
in the output.  Timing-arrow text itself can never appear in the output. -/
theorem claim_C7_amended :
    (∀ content, vtt_decode content = amendedC7_decode content) ∧
    (∀ content, strContains (vtt_decode content) "-->" = false) ∧
    vtt_decode
      "WEBVTT\n\n1\n00:00:00.000 --> 00:00:04.000\nHello world\n\n2\n00:00:04.000 --> 00:00:08.000\nGood bye" =
      "Hello world Good bye" := by
  refine ⟨?_, ?_, by decide⟩
  · intro content
    unfold vtt_decode amendedC7_decode
    dsimp only
    rw [vtt_filter_filterMap]
  · intro content
    unfold vtt_decode strContains
    apply listInfixOf_pyJoin_space
    · decide
    · decide
    · intro s hs
      simp only [List.mem_map] at hs
      obtain ⟨line, hline, hseq⟩ := hs
      rw [List.mem_filter] at hline
      have hk := hline.2
      have hnc : strContains line "-->" = false := by
        rw [vttKeepLine_eq_not] at hk
        by_contra hcon
        rw [Bool.not_eq_false] at hcon
        simp [hcon] at hk
      by_contra hcon
      rw [Bool.not_eq_false] at hcon
      have hstr : listInfixOf ("-->" : String).data line.data = true := by
        apply listInfixOf_pyStripList
        have hdata : (pyStrip line).data = pyStripList line.data := rfl
        rw [← hdata, hseq]
        exact hcon
      unfold strContains at hnc
      rw [hnc] at hstr
      exact Bool.false_ne_true hstr

/-! ## C1 / C4: fetcher error handling -/

theorem handleExc_shape (e : PyExc) :
    (handleExc e).1 = "" ∧ (handleExc e).2.1 ≠ "" := by
  cases e with
  | downloadError msg =>
    simp only [handleExc]
    split
    · exact ⟨rfl, by decide⟩
    · split
      · exact ⟨rfl, by decide⟩
      · exact ⟨rfl, str_append_ne_empty _ _ (by decide)⟩
  | jsonDecodeError => exact ⟨rfl, by decide⟩
  | otherExc name msg =>
    refine ⟨rfl, ?_⟩
    apply str_append_ne_empty
    apply str_append_ne_empty
    apply str_append_ne_empty
    decide

theorem noCaptionsMsg_ne_empty (info : VideoInfo) : noCaptionsMsg info ≠ "" := by
  unfold noCaptionsMsg
  apply str_append_ne_empty
  apply str_append_ne_empty
  apply str_append_ne_empty
  decide

theorem fetch_eq_exc (w : World) (vid : String) (e : PyExc)
    (h : w.extract vid = .exc e) :
    fetch_english_transcript_ytdlp w vid = handleExc e := by
  simp only [fetch_english_transcript_ytdlp, h]

theorem fetch_eq_noinfo (w : World) (vid : String)
    (h : w.extract vid = .ok none) :
    fetch_english_transcript_ytdlp w vid =
      ("", "動画情報を取得できませんでした。", "") := by
  simp only [fetch_english_transcript_ytdlp, h]

theorem fetch_eq_nosub (w : World) (vid : String) (info : VideoInfo)
    (h1 : w.extract vid = .ok (some info)) (h2 : find_subtitle info = none) :
    fetch_english_transcript_ytdlp w vid = ("", noCaptionsMsg info, "") := by
  simp only [fetch_english_transcript_ytdlp, h1, h2]

theorem fetch_eq_urlErr (w : World) (vid : String) (info : VideoInfo)
    (url lang : String) (e : PyExc)
    (h1 : w.extract vid = .ok (some info))
    (h2 : find_subtitle info = some (url, lang))
    (h3 : w.urlopen url = .error e) :
    fetch_english_transcript_ytdlp w vid = handleExc e := by
  simp only [fetch_english_transcript_ytdlp, h1, h2, h3]

theorem fetch_eq_decodeErr (w : World) (vid : String) (info : VideoInfo)
    (url lang content : String)
    (h1 : w.extract vid = .ok (some info))
    (h2 : find_subtitle info = some (url, lang))
    (h3 : w.urlopen url = .ok content)
    (h4 : decode_payload w.jsonLoads url content = .error ()) :
    fetch_english_transcript_ytdlp w vid =
      ("", "字幕データの形式が正しくありません。", "") := by
  simp only [fetch_english_transcript_ytdlp, h1, h2, h3, h4]

theorem fetch_eq_decoded (w : World) (vid : String) (info : VideoInfo)
    (url lang content t : String)
    (h1 : w.extract vid = .ok (some info))
    (h2 : find_subtitle info = some (url, lang))
    (h3 : w.urlopen url = .ok content)
    (h4 : decode_payload w.jsonLoads url content = .ok t) :
    fetch_english_transcript_ytdlp w vid =
      (if t == "" then ("", "字幕データの解析に失敗しました。", "")
       else (t, "", if lang == "" then "en" else lang)) := by
  simp only [fetch_english_transcript_ytdlp, h1, h2, h3, h4]

/-- Claim C1: for every behaviour of the external world and every video id,
the fetch returns a triple in which exactly one of transcript text and error
message is non-empty; non-empty text always comes with a non-empty language
code, and empty text always comes with a non-empty error message.  (The
fetch is a total function of the modelled world, which is the embedded form
of `never raises past the fetch boundary`.) -/
theorem claim_C1 (w : World) (video_id : String) :
    ((fetch_english_transcript_ytdlp w video_id).1 = "" ∧
      (fetch_english_transcript_ytdlp w video_id).2.1 ≠ "") ∨
    ((fetch_english_transcript_ytdlp w video_id).1 ≠ "" ∧
      (fetch_english_transcript_ytdlp w video_id).2.1 = "" ∧
      (fetch_english_transcript_ytdlp w video_id).2.2 ≠ "") := by
  cases hW : w.extract video_id with
  | exc e =>
    rw [fetch_eq_exc w video_id e hW]
    exact Or.inl (handleExc_shape e)
  | ok oinfo =>
    cases oinfo with
    | none =>
      rw [fetch_eq_noinfo w video_id hW]
      exact Or.inl ⟨rfl, by decide⟩
    | some info =>
      cases hF : find_subtitle info with
      | none =>
        rw [fetch_eq_nosub w video_id info hW hF]
        exact Or.inl ⟨rfl, noCaptionsMsg_ne_empty info⟩
      | some pair =>
        obtain ⟨url, lang⟩ := pair
        cases hU : w.urlopen url with
        | error e =>
          rw [fetch_eq_urlErr w video_id info url lang e hW hF hU]
          exact Or.inl (handleExc_shape e)
        | ok content =>
          cases hD : decode_payload w.jsonLoads url content with
          | error u =>
            rw [fetch_eq_decodeErr w video_id info url lang content hW hF hU hD]
            exact Or.inl ⟨rfl, by decide⟩
          | ok t =>
            rw [fetch_eq_decoded w video_id info url lang content t hW hF hU hD]
            cases hT : (t == "") with
            | true =>
              exact Or.inl ⟨rfl,
                show ("字幕データの解析に失敗しました。" : String) ≠ "" by decide⟩
            | false =>
              refine Or.inr ⟨?_, rfl, ?_⟩
              · exact show t ≠ "" by simpa using hT
              · cases hL : (lang == "") with
                | true => exact show ("en" : String) ≠ "" by decide
                | false => exact show lang ≠ "" by simpa using hL

/-- Claim C4: when metadata extraction fails with a fatal error class
(video unavailable, or age restriction), the fetcher returns immediately
with empty text and the corresponding typed failure message — and the
result is the same for every possible behaviour of the later stages
(`urlopen`, `jsonLoads` quantified arbitrarily), i.e. no subsequent
retrieval or track selection influences it. -/
theorem claim_C4 :
    (∀ (msg video_id : String) (u : String → Except PyExc String)
        (j : String → Except Unit JsonDoc),
      strContains msg "Video unavailable" = true →
      fetch_english_transcript_ytdlp
        ⟨fun _ => .exc (.downloadError msg), u, j⟩ video_id =
        ("", "動画が利用できません。非公開または削除されている可能性があります。", "")) ∧
    (∀ (msg video_id : String) (u : String → Except PyExc String)
        (j : String → Except Unit JsonDoc),
      strContains msg "Video unavailable" = false →
      strContains msg "Sign in to confirm your age" = true →
      fetch_english_transcript_ytdlp
        ⟨fun _ => .exc (.downloadError msg), u, j⟩ video_id =
        ("", "年齢制限のある動画です。字幕を取得できません。", "")) := by
  constructor
  · intro msg vid u j h
    rw [fetch_eq_exc _ vid (.downloadError msg) rfl]
    simp only [handleExc]
    rw [h]
    rfl
  · intro msg vid u j h1 h2
    rw [fetch_eq_exc _ vid (.downloadError msg) rfl]
    simp only [handleExc]
    rw [h1, h2]
    rfl

theorem claim_C4_witness :
    fetch_english_transcript_ytdlp
      ⟨fun _ => .exc (.downloadError "ERROR: Video unavailable"),
        fun _ => .ok "x", fun _ => .error ()⟩ "vid" =
      ("", "動画が利用できません。非公開または削除されている可能性があります。", "") ∧
    fetch_english_transcript_ytdlp
      ⟨fun _ => .exc (.downloadError "ERROR: Sign in to confirm your age"),
        fun _ => .ok "x", fun _ => .error ()⟩ "vid" =
      ("", "年齢制限のある動画です。字幕を取得できません。", "") :=
  ⟨claim_C4.1 "ERROR: Video unavailable" "vid" (fun _ => .ok "x")
      (fun _ => .error ()) (by decide),
    claim_C4.2 "ERROR: Sign in to confirm your age" "vid" (fun _ => .ok "x")
      (fun _ => .error ()) (by decide) (by decide)⟩

/-! ## C2: secondary-language fallback -/

theorem find_lang_track_none (caps : List (String × List SubTrack))
    (l : String) (h : caps.lookup l = none) :
    find_lang_track caps l = none := by
  unfold find_lang_track
  rw [h]

theorem findSome?_none_of_all {α β : Type} (f : α → Option β) (l : List α)
    (h : ∀ x ∈ l, f x = none) : l.findSome? f = none :=
  List.findSome?_eq_none_iff.mpr h

theorem findSome?_append_none {α β : Type} (f : α → Option β)
    (l1 l2 : List α) (h : ∀ x ∈ l1, f x = none) :
    (l1 ++ l2).findSome? f = l2.findSome? f := by
  induction l1 with
  | nil => rfl
  | cons a rest ih =>
    rw [List.cons_append, List.findSome?_cons, h a (List.mem_cons_self a rest)]
    exact ih fun x hx => h x (List.mem_cons_of_mem a hx)

/-- Counterexample to claim C2: a video whose metadata reports manual
captions in `ja` only (a language on the secondary preference list) and no
English captions at all.  The code's secondary-language pass reads only
`automatic_captions`, so it returns the no-captions failure with empty text
instead of the decoded `ja` transcript the claim requires. -/
theorem claim_C2_counterexample :
    fetch_english_transcript_ytdlp
      ⟨fun _ => .ok (some ⟨[("ja", [⟨some "json3", "uJ"⟩])], []⟩),
        fun _ => .ok "x", fun _ => .error ()⟩ "vid" =
      ("", "字幕が見つかりませんでした。\n\n利用可能な手動字幕の言語: ja\n", "") := by
  decide

/-- Amended claim C2: the secondary-language fallback applies to *automatic*
captions only.  If no English caption track exists in either dict and `lang`
is the first language of the secondary preference list with a recognised
automatic track, the fetcher selects that track and (when its payload
downloads and decodes to non-empty text) returns the text with that
language code.  Manual-only non-English captions yield the no-captions
failure instead (see the counterexample). -/
theorem claim_C2_amended (info : VideoInfo) (w : World) (vid : String)
    (pre post : List String) (lang url content t : String)
    (hE : ∀ l ∈ english_codes,
      info.automatic_captions.lookup l = none ∧
      info.subtitles.lookup l = none)
    (hsplit : priority_langs = pre ++ lang :: post)
    (hpre : ∀ l ∈ pre, find_lang_track info.automatic_captions l = none)
    (hlang : find_lang_track info.automatic_captions lang = some (url, lang))
    (hne : info.automatic_captions ≠ [])
    (hlangne : lang ≠ "")
    (h1 : w.extract vid = .ok (some info))
    (h3 : w.urlopen url = .ok content)
    (h4 : decode_payload w.jsonLoads url content = .ok t)
    (ht : t ≠ "") :
    fetch_english_transcript_ytdlp w vid = (t, "", lang) := by
  have hsub : find_subtitle info = some (url, lang) := by
    unfold find_subtitle
    rw [findSome?_none_of_all _ _
      (fun l hl => find_lang_track_none _ l (hE l hl).1)]
    rw [findSome?_none_of_all _ _
      (fun l hl => find_lang_track_none _ l (hE l hl).2)]
    have hguard : info.automatic_captions.isEmpty = false := by
      cases hcap : info.automatic_captions with
      | nil => exact absurd hcap hne
      | cons a r => rfl
    rw [hguard]
    rw [hsplit, findSome?_append_none _ _ _ hpre, List.findSome?_cons, hlang]
    rfl
  have hT : (t == "") = false := beq_eq_false_iff_ne.mpr ht
  have hL : (lang == "") = false := beq_eq_false_iff_ne.mpr hlangne
  rw [fetch_eq_decoded w vid info url lang content t h1 hsub h3 h4, hT, hL]
  rfl

theorem claim_C2_amended_witness :
    fetch_english_transcript_ytdlp
      ⟨fun _ => .ok (some ⟨[], [("ja", [⟨some "vtt", "uV.vtt"⟩])]⟩),
        fun _ => .ok "WEBVTT\n00:00 --> 00:01\nこんにちは",
        fun _ => .error ()⟩ "vid" = ("こんにちは", "", "ja") :=
  claim_C2_amended ⟨[], [("ja", [⟨some "vtt", "uV.vtt"⟩])]⟩
    ⟨fun _ => .ok (some ⟨[], [("ja", [⟨some "vtt", "uV.vtt"⟩])]⟩),
      fun _ => .ok "WEBVTT\n00:00 --> 00:01\nこんにちは",
      fun _ => .error ()⟩ "vid"
    [] ["es", "fr", "de", "it", "pt", "ko", "zh", "zh-CN", "zh-TW"]
    "ja" "uV.vtt" "WEBVTT\n00:00 --> 00:01\nこんにちは" "こんにちは"
    (by decide) (by decide) (by decide) (by decide) (by decide) (by decide)
    rfl rfl rfl (by decide)

/-! ## C3: format selection within a language -/

/-- Counterexample to claim C3: for language `en` the metadata lists a
`vtt` track before a `json3` track; the code selects the first listed
recognised track (`u_vtt`), not the `json3` one, and the fetch downloads
and decodes that `vtt` payload. -/
theorem claim_C3_counterexample :
    find_subtitle
      ⟨[], [("en", [⟨some "vtt", "u_vtt"⟩, ⟨some "json3", "u_json3"⟩])]⟩ =
      some ("u_vtt", "en") ∧
    fetch_english_transcript_ytdlp
      ⟨fun _ => .ok (some
          ⟨[], [("en", [⟨some "vtt", "u_vtt"⟩, ⟨some "json3", "u_json3"⟩])]⟩),
        fun u => if u == "u_vtt" then .ok "WEBVTT\nHello" else .ok "other",
        fun _ => .error ()⟩ "vid" = ("Hello", "", "en") := by
  decide

theorem find?_first_allowed (ts1 ts2 : List SubTrack) (tr : SubTrack)
    (h1 : ∀ s ∈ ts1, allowedTrack s = false) (h2 : allowedTrack tr = true) :
    (ts1 ++ tr :: ts2).find? allowedTrack = some tr := by
  induction ts1 with
  | nil => exact List.find?_cons_of_pos ts2 h2
  | cons s rest ih =>
    rw [List.cons_append, List.find?_cons_of_neg _ (by
      rw [h1 s (List.mem_cons_self s rest)]
      exact Bool.false_ne_true)]
    exact ih fun x hx => h1 x (List.mem_cons_of_mem s hx)

/-- Amended claim C3: within the chosen language the fetcher selects the
first track in upstream listing order whose wire format is one of the
recognised set (json3, srv3, srv2, srv1, vtt, ttml); there is no
format-priority ordering among these, so an earlier-listed `vtt` track
beats a later `json3` track. -/
theorem claim_C3_amended (caps : List (String × List SubTrack))
    (lang : String) (ts1 ts2 : List SubTrack) (tr : SubTrack)
    (hlk : caps.lookup lang = some (ts1 ++ tr :: ts2))
    (h1 : ∀ s ∈ ts1, allowedTrack s = false)
    (h2 : allowedTrack tr = true) :
    find_lang_track caps lang = some (tr.url, lang) := by
  simp only [find_lang_track, hlk, find?_first_allowed ts1 ts2 tr h1 h2]

theorem claim_C3_amended_witness :
    find_lang_track [("en", [⟨none, "u0"⟩, ⟨some "vtt", "u_vtt"⟩,
      ⟨some "json3", "u_json3"⟩])] "en" = some ("u_vtt", "en") :=
  claim_C3_amended _ "en" [⟨none, "u0"⟩] [⟨some "json3", "u_json3"⟩]
    ⟨some "vtt", "u_vtt"⟩ (by decide) (by decide) (by decide)

/-! ## C5: video identifier extraction -/

theorem searchVEq_skip (p2 p1 : Option Char) (c : Char) (rest : List Char)
    (h : (p2 == some 'v' && p1 == some '=') = false) :
    searchVEq p2 p1 (c :: rest) = searchVEq p1 (some c) rest := by
  simp only [searchVEq, h]
  rfl

theorem matchIdAt_full (cs : List Char) (h11 : cs.length = 11)
    (hall : cs.all idChar = true) : matchIdAt cs = some cs := by
  have ht : cs.take 11 = cs := by
    rw [← h11]
    exact List.take_length cs
  simp [matchIdAt, ht, h11, hall]

theorem matchIdAt_some (cs r : List Char) (h : matchIdAt cs = some r) :
    r.length = 11 ∧ r.all idChar = true := by
  simp only [matchIdAt] at h
  split at h
  next hcond =>
    injection h with hr
    subst hr
    rw [Bool.and_eq_true] at hcond
    exact ⟨by simpa using hcond.1, hcond.2⟩
  next => exact absurd h (by simp)

theorem idChar_ne_eq {c : Char} (h : idChar c = true) : c ≠ '=' :=
  fun he => absurd (he ▸ h) (by decide)

theorem idChar_ne_slash {c : Char} (h : idChar c = true) : c ≠ '/' :=
  fun he => absurd (he ▸ h) (by decide)

theorem searchVEq_none_noEq : ∀ (cs : List Char) (p2 p1 : Option Char),
    p1 ≠ some '=' → (∀ c ∈ cs, c ≠ '=') → searchVEq p2 p1 cs = none := by
  intro cs
  induction cs with
  | nil => intro p2 p1 _ _; rfl
  | cons c rest ih =>
    intro p2 p1 hp1 hcs
    have hb : (p1 == some '=') = false := beq_eq_false_iff_ne.mpr hp1
    have hcond : ((p2 == some 'v') && (p1 == some '=')) = false := by
      rw [hb]
      exact Bool.and_false _
    rw [searchVEq_skip p2 p1 c rest hcond]
    refine ih p1 (some c) ?_ (fun x hx => hcs x (List.mem_cons_of_mem c hx))
    intro heq
    injection heq with hc
    exact hcs c (List.mem_cons_self c rest) hc

theorem no_eq_chars (pre id : List Char) (hpre : ∀ c ∈ pre, c ≠ '=')
    (hall : id.all idChar = true) : ∀ c ∈ pre ++ id, c ≠ '=' := by
  intro c hc
  rcases List.mem_append.mp hc with h | h
  · exact hpre c h
  · exact idChar_ne_eq (List.all_eq_true.mp hall c h)

theorem searchVEq_hit (cs : List Char) (h11 : cs.length = 11)
    (hall : cs.all idChar = true) :
    searchVEq (some 'v') (some '=') cs = some cs := by
  cases cs with
  | nil => simp at h11
  | cons c rest =>
    have hm := matchIdAt_full (c :: rest) h11 hall
    simp only [searchVEq]
    rw [if_pos (show (((some 'v' : Option Char) == some 'v') &&
      ((some '=' : Option Char) == some '=')) = true by decide)]
    rw [hm]

theorem searchAfterToken_skip (token : List Char) (c : Char) (rest : List Char)
    (h : token.isPrefixOf (c :: rest) = false) :
    searchAfterToken token (c :: rest) = searchAfterToken token rest := by
  simp only [searchAfterToken, h]
  rfl

theorem searchAfterToken_found (token : List Char) (c : Char)
    (rest r : List Char)
    (hpre : token.isPrefixOf (c :: rest) = true)
    (hm : matchIdAt ((c :: rest).drop token.length) = some r) :
    searchAfterToken token (c :: rest) = some r := by
  simp only [searchAfterToken, hpre, hm]
  rfl

theorem searchAfterToken_none_missing (token : List Char) (pc : Char)
    (hpc : pc ∈ token) :
    ∀ cs : List Char, (∀ c ∈ cs, c ≠ pc) → searchAfterToken token cs = none := by
  intro cs
  induction cs with
  | nil => intro _; rfl
  | cons c rest ih =>
    intro hcs
    have hpre : token.isPrefixOf (c :: rest) = false := by
      by_contra hcon
      rw [Bool.not_eq_false] at hcon
      have hsub : token <+: c :: rest := by
        rwa [← List.isPrefixOf_iff_prefix]
      exact hcs pc (hsub.subset hpc) rfl
    rw [searchAfterToken_skip token c rest hpre]
    exact ih fun x hx => hcs x (List.mem_cons_of_mem c hx)

theorem searchVEq_some_shape : ∀ (cs : List Char) (p2 p1 : Option Char)
    (r : List Char), searchVEq p2 p1 cs = some r →
    r.length = 11 ∧ r.all idChar = true := by
  intro cs
  induction cs with
  | nil => intro p2 p1 r h; exact absurd h (by simp [searchVEq])
  | cons c rest ih =>
    intro p2 p1 r h
    cases hcond : ((p2 == some 'v') && (p1 == some '=')) with
    | false =>
      rw [searchVEq_skip p2 p1 c rest hcond] at h
      exact ih p1 (some c) r h
    | true =>
      cases hm : matchIdAt (c :: rest) with
      | some r' =>
        have hstep : searchVEq p2 p1 (c :: rest) = some r' := by
          simp [searchVEq, hcond, hm]
        rw [hstep] at h
        injection h with hr
        subst hr
        exact matchIdAt_some _ _ hm
      | none =>
        have hstep : searchVEq p2 p1 (c :: rest) =
            searchVEq p1 (some c) rest := by
          simp [searchVEq, hcond, hm]
        rw [hstep] at h
        exact ih p1 (some c) r h

theorem searchAfterToken_some_shape (token : List Char) :
    ∀ (cs r : List Char), searchAfterToken token cs = some r →
    r.length = 11 ∧ r.all idChar = true := by
  intro cs
  induction cs with
  | nil => intro r h; exact absurd h (by simp [searchAfterToken])
  | cons c rest ih =>
    intro r h
    cases hpre : token.isPrefixOf (c :: rest) with
    | false =>
      rw [searchAfterToken_skip token c rest hpre] at h
      exact ih r h
    | true =>
      cases hm : matchIdAt ((c :: rest).drop token.length) with
      | some r' =>
        rw [searchAfterToken_found token c rest r' hpre hm] at h
        injection h with hr
        subst hr
        exact matchIdAt_some _ _ hm
      | none =>
        have hstep : searchAfterToken token (c :: rest) =
            searchAfterToken token rest := by
          simp [searchAfterToken, hpre, hm]
        rw [hstep] at h
        exact ih r h

theorem extract_video_id_shape (url : String) :
    extract_video_id url = "" ∨
    ((extract_video_id url).data.length = 11 ∧
      (extract_video_id url).data.all idChar = true) := by
  unfold extract_video_id
  cases h1 : searchVEq none none url.data with
  | some r => exact Or.inr (searchVEq_some_shape url.data none none r h1)
  | none =>
    cases h2 : searchAfterToken "youtu.be/".data url.data with
    | some r => exact Or.inr (searchAfterToken_some_shape _ url.data r h2)
    | none =>
      cases h3 : searchAfterToken "embed/".data url.data with
      | some r => exact Or.inr (searchAfterToken_some_shape _ url.data r h3)
      | none =>
        cases h4 : searchAfterToken "shorts/".data url.data with
        | some r => exact Or.inr (searchAfterToken_some_shape _ url.data r h4)
        | none => exact Or.inl rfl

/-- Claim C5: the extractor returns the 11-character identifier matched by
the first pattern that matches, over the ordered URL shapes (`v=` query
parameter, `youtu.be/` path, `embed/` path, `shorts/` path), and the empty
string when nothing matches.  Stated as: correctness on each of the four
shapes for an arbitrary 11-character identifier, emptiness on an
unrecognised URL, first-pattern precedence (`v=` beats `youtu.be/` on a URL
carrying both), and the general guarantee that any non-empty result is an
11-character identifier. -/
theorem claim_C5 (id : String) (h11 : id.data.length = 11)
    (hall : id.data.all idChar = true) :
    extract_video_id ("https://www.youtube.com/watch?v=" ++ id) = id ∧
    extract_video_id ("https://youtu.be/" ++ id) = id ∧
    extract_video_id ("https://www.youtube.com/embed/" ++ id) = id ∧
    extract_video_id ("https://www.youtube.com/shorts/" ++ id) = id ∧
    extract_video_id "https://example.com/page" = "" ∧
    extract_video_id "https://youtu.be/dQw4w9WgXcQ?v=abcdefghijk" =
      "abcdefghijk" ∧
    (∀ url : String, extract_video_id url = "" ∨
      ((extract_video_id url).data.length = 11 ∧
        (extract_video_id url).data.all idChar = true)) := by
  refine ⟨?_, ?_, ?_, ?_, by decide, by decide, extract_video_id_shape⟩
  · unfold extract_video_id
    rw [String.data_append]
    rw [show ("https://www.youtube.com/watch?v=" : String).data =
      ['h','t','t','p','s',':','/','/','w','w','w','.','y','o','u','t','u',
       'b','e','.','c','o','m','/','w','a','t','c','h','?','v','='] from rfl]
    simp only [List.cons_append, List.nil_append]
    iterate 32 rw [searchVEq_skip _ _ _ _ (by decide)]
    rw [searchVEq_hit id.data h11 hall]
  · unfold extract_video_id
    rw [String.data_append]
    rw [searchVEq_none_noEq _ none none (by decide)
      (no_eq_chars ("https://youtu.be/" : String).data id.data
        (by decide) hall)]
    rw [show ("https://youtu.be/" : String).data =
      ['h','t','t','p','s',':','/','/','y','o','u','t','u','.','b','e','/']
      from rfl]
    rw [show ("youtu.be/" : String).data =
      ['y','o','u','t','u','.','b','e','/'] from rfl]
    simp only [List.cons_append, List.nil_append]
    iterate 8 rw [searchAfterToken_skip _ _ _ (by simp [List.isPrefixOf])]
    rw [searchAfterToken_found ['y','o','u','t','u','.','b','e','/'] 'y'
      ('o' :: 'u' :: 't' :: 'u' :: '.' :: 'b' :: 'e' :: '/' :: id.data) id.data
      (by simp [List.isPrefixOf]) (matchIdAt_full id.data h11 hall)]
  · unfold extract_video_id
    rw [String.data_append]
    rw [searchVEq_none_noEq _ none none (by decide)
      (no_eq_chars ("https://www.youtube.com/embed/" : String).data id.data
        (by decide) hall)]
    rw [show ("https://www.youtube.com/embed/" : String).data =
      ['h','t','t','p','s',':','/','/','w','w','w','.','y','o','u','t','u',
       'b','e','.','c','o','m','/','e','m','b','e','d','/'] from rfl]
    rw [show ("youtu.be/" : String).data =
      ['y','o','u','t','u','.','b','e','/'] from rfl]
    rw [show ("embed/" : String).data = ['e','m','b','e','d','/'] from rfl]
    simp only [List.cons_append, List.nil_append]
    iterate 54 rw [searchAfterToken_skip _ _ _ (by simp [List.isPrefixOf])]
    rw [searchAfterToken_none_missing ['y','o','u','t','u','.','b','e','/']
      '/' (by decide) id.data
      (fun c hc => idChar_ne_slash (List.all_eq_true.mp hall c hc))]
    rw [searchAfterToken_found ['e','m','b','e','d','/'] 'e'
      ('m' :: 'b' :: 'e' :: 'd' :: '/' :: id.data) id.data
      (by simp [List.isPrefixOf]) (matchIdAt_full id.data h11 hall)]
  · unfold extract_video_id
    rw [String.data_append]
    rw [searchVEq_none_noEq _ none none (by decide)
      (no_eq_chars ("https://www.youtube.com/shorts/" : String).data id.data
        (by decide) hall)]
    rw [show ("https://www.youtube.com/shorts/" : String).data =
      ['h','t','t','p','s',':','/','/','w','w','w','.','y','o','u','t','u',
       'b','e','.','c','o','m','/','s','h','o','r','t','s','/'] from rfl]
    rw [show ("youtu.be/" : String).data =
      ['y','o','u','t','u','.','b','e','/'] from rfl]
    rw [show ("embed/" : String).data = ['e','m','b','e','d','/'] from rfl]
    rw [show ("shorts/" : String).data =
      ['s','h','o','r','t','s','/'] from rfl]
    simp only [List.cons_append, List.nil_append]
    iterate 86 rw [searchAfterToken_skip _ _ _ (by simp [List.isPrefixOf])]
    rw [searchAfterToken_none_missing ['y','o','u','t','u','.','b','e','/']
      '/' (by decide) id.data
      (fun c hc => idChar_ne_slash (List.all_eq_true.mp hall c hc))]
    rw [searchAfterToken_none_missing ['e','m','b','e','d','/']
      '/' (by decide) id.data
      (fun c hc => idChar_ne_slash (List.all_eq_true.mp hall c hc))]
    rw [searchAfterToken_found ['s','h','o','r','t','s','/'] 's'
      ('h' :: 'o' :: 'r' :: 't' :: 's' :: '/' :: id.data) id.data
      (by simp [List.isPrefixOf]) (matchIdAt_full id.data h11 hall)]

theorem claim_C5_witness :
    extract_video_id ("https://www.youtube.com/watch?v=" ++ "dQw4w9WgXcQ") =
      "dQw4w9WgXcQ" ∧
    extract_video_id ("https://youtu.be/" ++ "dQw4w9WgXcQ") =
      "dQw4w9WgXcQ" ∧
    extract_video_id ("https://www.youtube.com/embed/" ++ "dQw4w9WgXcQ") =
      "dQw4w9WgXcQ" ∧
    extract_video_id ("https://www.youtube.com/shorts/" ++ "dQw4w9WgXcQ") =
      "dQw4w9WgXcQ" :=
  have h := claim_C5 "dQw4w9WgXcQ" (by decide) (by decide)
  ⟨h.1, h.2.1, h.2.2.1, h.2.2.2.1⟩

end TYTools
